import Mathlib

/-!
# Verification of the w11-theming-suite native watcher core

Shallow embedding of the element-tracking and appearance-mutation engine of
`src/native/ShellTAP/ShellTAP.cpp` (the generic multi-target watcher) and of
`src/native/TaskbarTAP/TaskbarTAP.cpp` (the single-target watcher variant).

Wide strings (`wchar_t*`) are modelled as `List Char`; opaque 64-bit element
handles as `Nat`; the `double` opacity values as `ℚ` (the code only ever uses
the literals 0.0, 0.3 and 1.0).
-/

set_option maxHeartbeats 1000000

abbrev WStr := List Char

/-- Helper `prefixMatch needle hay`: the needle is a leading segment of the haystack.
Auxiliary for the `wcsstr` model. -/
def prefixMatch : WStr → WStr → Bool
  | [], _ => true
  | _ :: _, [] => false
  | c :: cs, d :: ds => c == d && prefixMatch cs ds

/-- Model `strContains hay needle` of model of `wcsstr(hay, needle) != nullptr`
(the needle occurs somewhere inside the haystack). -/
def strContains (hay needle : WStr) : Bool :=
  match hay with
  | [] => prefixMatch needle []
  | c :: rest => prefixMatch needle (c :: rest) || strContains rest needle

/-- One configured target rule: a name pattern and a type pattern
(`g_config.targetNames[i]` / `g_config.targetTypes[i]`). -/
structure TargetRule where
  name : WStr
  type : WStr
deriving DecidableEq

/-- The single-character wildcard pattern `"*"`. -/
def wildcard : WStr := ['*']

/-- The literal substring `"Stroke"` used for the stroke-classification heuristic. -/
def strokeStr : WStr := ['S', 't', 'r', 'o', 'k', 'e']

/-- The stroke heuristic: the (non-null) element name contains `"Stroke"`. -/
def nameHasStroke : Option WStr → Bool
  | some n => strContains n strokeStr
  | none => false

/-- Name condition of one rule: wildcard, or exact equality against a non-null name. -/
def ruleNameMatch (r : TargetRule) (nm : Option WStr) : Bool :=
  if r.name = wildcard then true
  else
    match nm with
    | some n => decide (n = r.name)
    | none => false

/-- Type condition of one rule: wildcard, or substring occurrence in a non-null type. -/
def ruleTypeMatch (r : TargetRule) (tp : Option WStr) : Bool :=
  if r.type = wildcard then true
  else
    match tp with
    | some t => strContains t r.type
    | none => false

/-- Both conditions of one rule. -/
def ruleMatches (nm tp : Option WStr) (r : TargetRule) : Bool :=
  ruleNameMatch r nm && ruleTypeMatch r tp

/-- Model of `VisualTreeWatcher::MatchesTarget`: scan the rules in order; on the
first rule whose name and type conditions both hold, return `matched = true`
together with the stroke classification (`*outIsStroke` stays `false` when no
rule matches). -/
def matchesTarget : List TargetRule → Option WStr → Option WStr → Bool × Bool
  | [], _, _ => (false, false)
  | r :: rs, nm, tp =>
    if ruleMatches nm tp r then (true, nameHasStroke nm)
    else matchesTarget rs nm tp

/-- The C enum `AppearanceMode { MODE_DEFAULT = 0, MODE_TRANSPARENT = 1, MODE_ACRYLIC = 2 }`. -/
inductive AppearanceMode
  | default
  | transparent
  | acrylic
deriving DecidableEq

/-- The integer value of a mode (the enum's underlying value). -/
def modeToInt : AppearanceMode → Int
  | .default => 0
  | .transparent => 1
  | .acrylic => 2

/-- The cast `(AppearanceMode)m` for `m ∈ {0,1,2}`. -/
def intToMode (m : Int) : AppearanceMode :=
  if m = 0 then .default else if m = 1 then .transparent else .acrylic

/-- The C enum `VisualMutationType { Add, Remove }` (the part the watcher handles). -/
inductive MutationKind
  | add
  | remove
deriving DecidableEq

/-- A `VisualElement` descriptor delivered by the host. -/
structure VisualElement where
  handle : Nat
  name : Option WStr
  type : Option WStr
  numChildren : Nat
deriving DecidableEq

/-- One `OnVisualTreeChange` notification. -/
structure ElementEvent where
  parent : Nat
  element : VisualElement
  kind : MutationKind
deriving DecidableEq

/-- The HRESULT values the embedded functions return. -/
inductive HResult
  | sOk
  | eInvalidArg
deriving DecidableEq

/-- One row of the tracked table (`VisualTreeWatcher::TrackedElement`). -/
structure TrackedElement where
  handle : Nat
  name : WStr
  type : WStr
  isStroke : Bool
  active : Bool
deriving DecidableEq

/-- Capacity `VisualTreeWatcher::MAX_TRACKED`. -/
def MAX_TRACKED : Nat := 32

/-- The watcher's tracked table: the slots `m_tracked[0 .. m_trackedCount)`. -/
structure WatcherState where
  tracked : List TrackedElement
deriving DecidableEq

/-- Fresh watcher (`m_trackedCount = 0`, table zeroed). -/
def emptyWatcher : WatcherState := ⟨[]⟩

/-- Model of `VisualTreeWatcher::GetTrackedCount` (returns `m_trackedCount`). -/
def getTrackedCount (s : WatcherState) : Nat := s.tracked.length

/-- The Add branch of `VisualTreeWatcher::OnVisualTreeChange`: outside discovery
mode, when name and type are non-null and the matcher succeeds and the table is
not full, append a fresh active row (names truncated by `wcsncpy_s` to 63/127
characters); otherwise leave the table unchanged. -/
def onAdd (dm : Bool) (rules : List TargetRule) (s : WatcherState)
    (e : VisualElement) : WatcherState :=
  if dm then s
  else
    match e.name, e.type with
    | some n, some t =>
      if (matchesTarget rules (some n) (some t)).1 then
        if s.tracked.length < MAX_TRACKED then
          ⟨s.tracked ++
            [⟨e.handle, n.take 63, t.take 127,
              (matchesTarget rules (some n) (some t)).2, true⟩]⟩
        else s
      else s
    | _, _ => s

/-- The Remove branch of `OnVisualTreeChange`: every row whose handle equals the
removed handle gets `active = false` and `handle = 0`. -/
def onRemove (s : WatcherState) (h : Nat) : WatcherState :=
  ⟨s.tracked.map fun r =>
    if r.handle = h then { r with active := false, handle := 0 } else r⟩

/-- The watcher together with the discovery log stream. -/
structure ShellWatcherFull where
  state : WatcherState
  log : List VisualElement
deriving DecidableEq

/-- Model of `VisualTreeWatcher::OnVisualTreeChange`: in discovery mode an Add is
appended to the discovery log; the table is updated per `onAdd`/`onRemove`;
the callback always returns `S_OK`. -/
def onVisualTreeChange (dm : Bool) (rules : List TargetRule)
    (w : ShellWatcherFull) (ev : ElementEvent) : ShellWatcherFull × HResult :=
  match ev.kind with
  | .add =>
    (⟨onAdd dm rules w.state ev.element,
      if dm then w.log ++ [ev.element] else w.log⟩, .sOk)
  | .remove => (⟨onRemove w.state ev.element.handle, w.log⟩, .sOk)

/-- Processing a whole event sequence. -/
def processEvents (dm : Bool) (rules : List TargetRule) :
    ShellWatcherFull → List ElementEvent → ShellWatcherFull
  | w, [] => w
  | w, ev :: rest => processEvents dm rules (onVisualTreeChange dm rules w ev).1 rest

/-- The row indices `VisualTreeWatcher::ApplyMode` does NOT skip: the loop over
`i < m_trackedCount` ignores rows with `!active || handle == 0`. -/
def applyModeRows (s : WatcherState) : List Nat :=
  (List.range s.tracked.length).filter fun i =>
    match s.tracked[i]? with
    | some r => r.active && (r.handle != 0)
    | none => false

/-- The `ApplyToElement(handle, mode, isStroke)` calls `ApplyMode` issues. -/
def applyModeCalls (s : WatcherState) (mode : AppearanceMode) :
    List (Nat × AppearanceMode × Bool) :=
  (applyModeRows s).filterMap fun i =>
    match s.tracked[i]? with
    | some r => some (r.handle, mode, r.isStroke)
    | none => none

/-- Number of active rows tracking a given handle. -/
def countActive (s : WatcherState) (h : Nat) : Nat :=
  (s.tracked.filter fun r => r.active && (r.handle == h)).length

/-- Number of active rows overall. -/
def activeCount (s : WatcherState) : Nat :=
  (s.tracked.filter fun r => r.active).length

/-! ### Basic step lemmas -/

def stepOpen (A : Nat → Bool) (ev : ElementEvent) : Nat → Bool :=
  fun h =>
    if ev.element.handle = h then
      match ev.kind with
      | .add => true
      | .remove => false
    else A h

def wfFrom (A : Nat → Bool) : List ElementEvent → Bool
  | [] => true
  | ev :: rest =>
    (match ev.kind with
     | .add => !(A ev.element.handle)
     | .remove => true) && wfFrom (stepOpen A ev) rest

def openAfter (A : Nat → Bool) (evs : List ElementEvent) : Nat → Bool :=
  evs.foldl stepOpen A

/-- An event that is an Add whose element carries a name and a type and matches
the rule set (Bool-valued so concrete instances evaluate). -/
def matchingAddB (rules : List TargetRule) (ev : ElementEvent) : Bool :=
  (ev.kind == MutationKind.add) &&
    (match ev.element.name, ev.element.type with
     | some n, some t => (matchesTarget rules (some n) (some t)).1
     | _, _ => false)

/-- The record `ShellTAPConfig` of `ShellTAP.h` (the 8 fixed-size rule slots are
modelled as the list of the first `targetCount` (≤ 8) rules). -/
structure ShellTAPConfig where
  version : Int
  mode : Int
  targetCount : Nat
  targets : List TargetRule
  logPath : WStr
  flags : Int
deriving DecidableEq

def SHELLTAP_CONFIG_VERSION : Int := 1

/-- From `ReadConfig`: `g_discoveryMode = (g_config.targetCount == 0)`. -/
def discoveryOf (cfg : ShellTAPConfig) : Bool := cfg.targetCount == 0

/-- The ShellTAP process-wide globals relevant to the exported control surface:
`g_mode`, the shared-memory mode word `*g_pSharedMode` (absent when the mapping
failed), and `g_pWatcher`. -/
structure ShellGlobals where
  mode : AppearanceMode
  sharedMode : Option Int
  watcher : Option WatcherState
deriving DecidableEq

/-- Model of `SetShellTAPMode(int mode)`: reject values outside `{0,1,2}` with
`E_INVALIDARG`; otherwise set `g_mode`, write the shared word (when mapped),
and invoke `g_pWatcher->ApplyMode(g_mode)` (when a watcher exists), returning
the list of `ApplyToElement` calls that invocation issues. -/
def setShellTAPMode (g : ShellGlobals) (m : Int) :
    HResult × ShellGlobals × List (Nat × AppearanceMode × Bool) :=
  if m < 0 ∨ 2 < m then (.eInvalidArg, g, [])
  else
    let newMode := intToMode m
    let g' : ShellGlobals :=
      { mode := newMode,
        sharedMode := match g.sharedMode with
          | some _ => some m
          | none => none,
        watcher := g.watcher }
    match g.watcher with
    | some w => (.sOk, g', applyModeCalls w newMode)
    | none => (.sOk, g', [])

/-- Model of `GetShellTAPMode()`. -/
def getShellTAPMode (g : ShellGlobals) : Int := modeToInt g.mode

/-- Model of `GetShellTAPAppliedCount()`: `g_pWatcher ? g_pWatcher->GetTrackedCount() : 0`. -/
def getShellTAPAppliedCount (g : ShellGlobals) : Nat :=
  match g.watcher with
  | some w => getTrackedCount w
  | none => 0

/-- The TaskbarTAP process-wide globals: `g_appearance`, the shared word
`*g_pSharedMode` and whether `g_pWatcher` exists (the taskbar watcher's own
table is not needed by the claims about its mode setters). -/
structure TaskbarGlobals where
  appearance : AppearanceMode
  sharedMode : Option Int
  watcherPresent : Bool
deriving DecidableEq

/-- Model of `SetTaskbarTransparent()`: sets `g_appearance` and calls `ApplyAppearance`
when a watcher exists; the returned flag records whether `ApplyAppearance`
was invoked. The shared word is NOT written. -/
def setTaskbarTransparent (g : TaskbarGlobals) : HResult × TaskbarGlobals × Bool :=
  (.sOk, { g with appearance := .transparent }, g.watcherPresent)

/-- Model of `SetTaskbarAcrylic()`. -/
def setTaskbarAcrylic (g : TaskbarGlobals) : HResult × TaskbarGlobals × Bool :=
  (.sOk, { g with appearance := .acrylic }, g.watcherPresent)

/-- Model of `SetTaskbarDefault()`. -/
def setTaskbarDefault (g : TaskbarGlobals) : HResult × TaskbarGlobals × Bool :=
  (.sOk, { g with appearance := .default }, g.watcherPresent)

/-! ## Concrete inputs used by the witnesses -/

def wildRules : List TargetRule := [⟨wildcard, wildcard⟩]

def c5Events : List ElementEvent :=
  [⟨0, ⟨5, some [], some [], 0⟩, .add⟩,
   ⟨0, ⟨5, some [], some [], 0⟩, .remove⟩,
   ⟨0, ⟨5, some [], some [], 0⟩, .add⟩]

def c6Events : List ElementEvent :=
  (List.range (MAX_TRACKED + 1)).map fun i => ⟨0, ⟨i + 1, some [], some [], 0⟩, .add⟩

def c8Row : TrackedElement := ⟨7, [], [], false, true⟩

def c8State : ShellWatcherFull := ⟨⟨[c8Row]⟩, []⟩

/-! ## Claim theorems about the watcher state machine -/

/-- A remote value constructed through `CreateInstance(type, value)`. -/
inductive RemoteValue
  | doubleLit (v : ℚ)
  | solidColorBrush (color : WStr)
deriving DecidableEq

/-- A remote property operation. `clearProp` models the remove-override call of
the diagnostics interface (never used by this code). -/
inductive RemoteOp
  | setProp (propIdx : Nat) (value : RemoteValue)
  | clearProp (propIdx : Nat)
deriving DecidableEq

/-- The brush value string `L"Transparent"`. -/
def transparentColor : WStr := ['T', 'r', 'a', 'n', 's', 'p', 'a', 'r', 'e', 'n', 't']

/-- The discovered property indices of one live element
(`fillIndex` / `opacityIndex` from `GetPropertyValuesChain`, `UINT_MAX`
when not found modelled as `none`). -/
structure ElemProps where
  opacityIndex : Option Nat
  fillIndex : Option Nat
deriving DecidableEq

/-- Model of `SetElementOpacity` (ShellTAP): write the opacity literal when the Opacity
property was discovered; write the transparent solid-color brush into Fill
when the Fill property was discovered and `opacity < 1.0`. No clear call. -/
def setElementOpacity (e : ElemProps) (opacity : ℚ) : List RemoteOp :=
  (match e.opacityIndex with
   | some oi => [RemoteOp.setProp oi (RemoteValue.doubleLit opacity)]
   | none => []) ++
  (match e.fillIndex with
   | some fi =>
     if opacity < 1 then [RemoteOp.setProp fi (RemoteValue.solidColorBrush transparentColor)]
     else []
   | none => [])

/-- The opacity `ApplyToElement` computes per mode and classification. -/
def opacityFor (mode : AppearanceMode) (isStroke : Bool) : ℚ :=
  match mode with
  | .transparent => 0
  | .acrylic => if isStroke then 0 else 3/10
  | .default => 1

/-- The `setFill` flag `ApplyToElement` computes; the code computes it but
never passes it on — `SetElementOpacity` decides the fill write from
`opacity < 1.0` alone. -/
def setFillFor (mode : AppearanceMode) (isStroke : Bool) : Bool :=
  match mode with
  | .transparent => true
  | .acrylic => !isStroke
  | .default => false

/-- Model of `VisualTreeWatcher::ApplyToElement` (ShellTAP): compute the opacity for the
mode and call `SetElementOpacity`. -/
def applyToElement (e : ElemProps) (mode : AppearanceMode) (isStroke : Bool) :
    List RemoteOp :=
  setElementOpacity e (opacityFor mode isStroke)

/-- Model of `SetRectangleOpacity` (TaskbarTAP): same write logic as ShellTAP's
`SetElementOpacity`. -/
def setRectangleOpacity (e : ElemProps) (opacity : ℚ) : List RemoteOp :=
  (match e.opacityIndex with
   | some oi => [RemoteOp.setProp oi (RemoteValue.doubleLit opacity)]
   | none => []) ++
  (match e.fillIndex with
   | some fi =>
     if opacity < 1 then [RemoteOp.setProp fi (RemoteValue.solidColorBrush transparentColor)]
     else []
   | none => [])

/-- Model of `VisualTreeWatcher::ApplyToRectangle` (TaskbarTAP): the if-chain selecting
the opacity per appearance and classification. -/
def applyToRectangle (e : ElemProps) (appearance : AppearanceMode) (isStroke : Bool) :
    List RemoteOp :=
  if appearance = .transparent ∨ (appearance = .acrylic ∧ isStroke = true) then
    setRectangleOpacity e 0
  else if appearance = .acrylic ∧ isStroke = false then
    setRectangleOpacity e (3/10)
  else if appearance = .default then
    setRectangleOpacity e 1
  else []

/-- The override state of one remote element's Opacity and Fill properties
(`none` = no override, the original data-bound value is in effect). -/
structure PropState where
  opacityOverride : Option RemoteValue
  fillOverride : Option RemoteValue
deriving DecidableEq

/-- The unmutated element: no overrides. -/
def blankProps : PropState := ⟨none, none⟩

/-- Semantics of one remote operation on the element's override state. -/
def applyOp (e : ElemProps) (st : PropState) (op : RemoteOp) : PropState :=
  match op with
  | .setProp idx v =>
    if e.opacityIndex = some idx then { st with opacityOverride := some v }
    else if e.fillIndex = some idx then { st with fillOverride := some v }
    else st
  | .clearProp idx =>
    if e.opacityIndex = some idx then { st with opacityOverride := none }
    else if e.fillIndex = some idx then { st with fillOverride := none }
    else st

/-- Run a list of remote operations. -/
def runOps (e : ElemProps) (st : PropState) (ops : List RemoteOp) : PropState :=
  ops.foldl (applyOp e) st

/-- Run a sequence of `ApplyToElement` calls (one per mode in the list). -/
def runModes (e : ElemProps) (isStroke : Bool) (st : PropState)
    (modes : List AppearanceMode) : PropState :=
  modes.foldl (fun acc m => runOps e acc (applyToElement e m isStroke)) st

/-- Spec-side predicate, following the claim's words: a "translucent-dark
(≈27% black) fill brush" is in particular not the fully transparent brush
(the keyword `Transparent` denotes alpha 0). -/
def translucentDarkColor_spec (c : WStr) : Prop := c ≠ transparentColor

/-! ## Claim theorems about the Property Mutator -/

/-! ## The TaskbarTAP watcher variant
(`VisualTreeWatcher::OnVisualTreeChange` in TaskbarTAP.cpp: composite rows
grouping a fill, a stroke and a frame handle per taskbar). -/

/-- One composite row of the taskbar table (`struct TaskbarInfo`): the three
member handles (0 = absent) and the liveness flag. -/
structure TaskbarInfo where
  backgroundFill : Nat
  backgroundStroke : Nat
  taskbarFrame : Nat
  active : Bool
deriving DecidableEq

/-- Capacity `VisualTreeWatcher::MAX_TASKBARS`. -/
def MAX_TASKBARS : Nat := 8

/-- The taskbar watcher's table: the slots `m_taskbars[0 .. m_taskbarCount)`. -/
structure TaskbarWatcherState where
  taskbars : List TaskbarInfo
deriving DecidableEq

/-- The literal `L"BackgroundFill"`. -/
def backgroundFillName : WStr :=
  ['B', 'a', 'c', 'k', 'g', 'r', 'o', 'u', 'n', 'd', 'F', 'i', 'l', 'l']

/-- The literal `L"BackgroundStroke"`. -/
def backgroundStrokeName : WStr :=
  ['B', 'a', 'c', 'k', 'g', 'r', 'o', 'u', 'n', 'd', 'S', 't', 'r', 'o', 'k', 'e']

/-- The literal `L"Rectangle"`. -/
def rectangleStr : WStr := ['R', 'e', 'c', 't', 'a', 'n', 'g', 'l', 'e']

/-- The literal `L"TaskbarFrame"`. -/
def taskbarFrameStr : WStr :=
  ['T', 'a', 's', 'k', 'b', 'a', 'r', 'F', 'r', 'a', 'm', 'e']

/-- Replace the row at one index (the in-place slot write of the C array). -/
def modifyAt : List TaskbarInfo → Nat → (TaskbarInfo → TaskbarInfo) → List TaskbarInfo
  | [], _, _ => []
  | r :: rs, 0, f => f r :: rs
  | r :: rs, Nat.succ i, f => r :: modifyAt rs i f

/-- The slot search of the Add branch (TaskbarTAP.cpp:465-475): the first
active row whose fill (resp. stroke) member is 0, depending on which element
kind arrived. -/
def findSlotAux (isFill isStroke : Bool) : List TaskbarInfo → Nat → Option Nat
  | [], _ => none
  | r :: rs, i =>
    if r.active && ((isFill && (r.backgroundFill == 0)) ||
        (isStroke && (r.backgroundStroke == 0))) then some i
    else findSlotAux isFill isStroke rs (i + 1)

def findSlot (rows : List TaskbarInfo) (isFill isStroke : Bool) : Option Nat :=
  findSlotAux isFill isStroke rows 0

/-- The member write of the Add branch: `if (isBackgroundFill) ... else if
(isBackgroundStroke) ... else if (isTaskbarFrame) ...`. -/
def setMember (r : TaskbarInfo) (isFill isStroke isFrame : Bool) (h : Nat) : TaskbarInfo :=
  if isFill then { r with backgroundFill := h }
  else if isStroke then { r with backgroundStroke := h }
  else if isFrame then { r with taskbarFrame := h }
  else r

/-- The Add branch of the taskbar `OnVisualTreeChange`: classify the element by
name/type, search for an active row with the matching member free (fill/stroke
only), otherwise start a fresh row when the table is not full, and write the
handle into the selected row's member slot. -/
def taskbarOnAdd (s : TaskbarWatcherState) (e : VisualElement) : TaskbarWatcherState :=
  match e.name, e.type with
  | some n, some t =>
    let isFill := decide (n = backgroundFillName) && strContains t rectangleStr
    let isStroke := decide (n = backgroundStrokeName) && strContains t rectangleStr
    let isFrame := strContains t taskbarFrameStr
    if isFill || isStroke || isFrame then
      match (if isFill || isStroke then findSlot s.taskbars isFill isStroke else none) with
      | some i => ⟨modifyAt s.taskbars i (fun r => setMember r isFill isStroke isFrame e.handle)⟩
      | none =>
        if s.taskbars.length < MAX_TASKBARS then
          ⟨s.taskbars ++ [setMember ⟨0, 0, 0, true⟩ isFill isStroke isFrame e.handle]⟩
        else s
    else s
  | _, _ => s

/-- The Remove branch of the taskbar `OnVisualTreeChange`: clear every member
slot holding the removed handle; a row whose three members are all 0 becomes
inactive. -/
def taskbarOnRemove (s : TaskbarWatcherState) (h : Nat) : TaskbarWatcherState :=
  ⟨s.taskbars.map fun r =>
    let r1 := if r.backgroundFill = h then { r with backgroundFill := 0 } else r
    let r2 := if r1.backgroundStroke = h then { r1 with backgroundStroke := 0 } else r1
    let r3 := if r2.taskbarFrame = h then { r2 with taskbarFrame := 0 } else r2
    if r3.active && (r3.backgroundFill == 0) && (r3.backgroundStroke == 0) &&
        (r3.taskbarFrame == 0) then
      { r3 with active := false }
    else r3⟩

/-- Model of the taskbar `VisualTreeWatcher::OnVisualTreeChange`; always
returns `S_OK`. -/
def taskbarOnVisualTreeChange (s : TaskbarWatcherState) (ev : ElementEvent) :
    TaskbarWatcherState × HResult :=
  match ev.kind with
  | .add => (taskbarOnAdd s ev.element, .sOk)
  | .remove => (taskbarOnRemove s ev.element.handle, .sOk)

/-- Processing a whole event sequence on the taskbar watcher. -/
def processTaskbarEvents : TaskbarWatcherState → List ElementEvent → TaskbarWatcherState
  | s, [] => s
  | s, ev :: rest => processTaskbarEvents (taskbarOnVisualTreeChange s ev).1 rest

/-- A handle-unique event stream on the taskbar watcher: the fill element
(handle 1) and the stroke element (handle 2) of one taskbar arrive, the fill
is removed, then a fill element with handle 1 reappears (a new lifetime). -/
def c5TaskbarEvents : List ElementEvent :=
  [⟨0, ⟨1, some backgroundFillName, some rectangleStr, 0⟩, .add⟩,
   ⟨0, ⟨2, some backgroundStrokeName, some rectangleStr, 0⟩, .add⟩,
   ⟨0, ⟨1, some backgroundFillName, some rectangleStr, 0⟩, .remove⟩,
   ⟨0, ⟨1, some backgroundFillName, some rectangleStr, 0⟩, .add⟩]

/-! ## Theorems -/

theorem prefixMatch_iff (n h : WStr) : prefixMatch n h = true ↔ ∃ q, n ++ q = h := by
  induction n generalizing h with
  | nil => simp [prefixMatch]
  | cons c cs ih =>
    cases h with
    | nil => simp [prefixMatch]
    | cons d ds =>
      simp only [prefixMatch, Bool.and_eq_true, beq_iff_eq, ih, List.cons_append,
        List.cons.injEq]
      constructor
      · rintro ⟨rfl, q, rfl⟩
        exact ⟨q, rfl, rfl⟩
      · rintro ⟨q, rfl, rfl⟩
        exact ⟨rfl, q, rfl⟩

theorem strContains_iff (h n : WStr) :
    strContains h n = true ↔ ∃ p q, p ++ n ++ q = h := by
  induction h with
  | nil =>
    simp only [strContains, prefixMatch_iff]
    constructor
    · rintro ⟨q, hq⟩
      exact ⟨[], q, by simpa using hq⟩
    · rintro ⟨p, q, hpq⟩
      rcases List.append_eq_nil.mp hpq with ⟨h1, h2⟩
      rcases List.append_eq_nil.mp h1 with ⟨rfl, rfl⟩
      exact ⟨[], rfl⟩
  | cons c rest ih =>
    simp only [strContains, Bool.or_eq_true, prefixMatch_iff, ih]
    constructor
    · rintro (⟨q, hq⟩ | ⟨p, q, hpq⟩)
      · exact ⟨[], q, by simpa using hq⟩
      · exact ⟨c :: p, q, by simp [hpq]⟩
    · rintro ⟨p, q, hpq⟩
      cases p with
      | nil =>
        left
        exact ⟨q, by simpa using hpq⟩
      | cons x xs =>
        right
        refine ⟨xs, q, ?_⟩
        simpa using (List.cons.inj hpq).2

/-! ## Target rules and the element matcher (`VisualTreeWatcher::MatchesTarget`) -/

theorem matchesTarget_eq (rules : List TargetRule) (nm tp : Option WStr) :
    matchesTarget rules nm tp =
      (rules.any (ruleMatches nm tp), rules.any (ruleMatches nm tp) && nameHasStroke nm) := by
  induction rules with
  | nil => simp [matchesTarget]
  | cons r rs ih =>
    simp only [matchesTarget, List.any_cons]
    by_cases h : ruleMatches nm tp r = true
    · simp [h]
    · simp only [Bool.not_eq_true] at h
      simp [h, ih]

theorem any_eq_of_perm {α : Type} (p : α → Bool) {l l' : List α}
    (hp : List.Perm l l') : l.any p = l'.any p := by
  rw [Bool.eq_iff_iff]
  simp only [List.any_eq_true]
  constructor
  · rintro ⟨x, hx, hpx⟩
    exact ⟨x, hp.mem_iff.mp hx, hpx⟩
  · rintro ⟨x, hx, hpx⟩
    exact ⟨x, hp.mem_iff.mpr hx, hpx⟩

/-- C4: the matcher returns `matched = true` iff some rule passes both the
name condition (wildcard, or non-null exact equality) and the type condition
(wildcard, or substring occurrence inside the element's type); and a null name
can only match a rule whose name pattern is the wildcard. -/
theorem matchesTarget_correct (rules : List TargetRule) (nm : Option WStr) (t : WStr) :
    ((matchesTarget rules nm (some t)).1 = true ↔
      ∃ r ∈ rules,
        (r.name = wildcard ∨ ∃ n, nm = some n ∧ n = r.name) ∧
        (r.type = wildcard ∨ ∃ p q, p ++ r.type ++ q = t)) ∧
    ((matchesTarget rules none (some t)).1 = true ↔
      ∃ r ∈ rules, r.name = wildcard ∧
        (r.type = wildcard ∨ ∃ p q, p ++ r.type ++ q = t)) := by
  have hname : ∀ (r : TargetRule) (nm : Option WStr),
      ruleNameMatch r nm = true ↔ (r.name = wildcard ∨ ∃ n, nm = some n ∧ n = r.name) := by
    intro r nm
    unfold ruleNameMatch
    by_cases hw : r.name = wildcard
    · simp [hw]
    · cases nm with
      | some n => simp [hw]
      | none => simp [hw]
  have htype : ∀ (r : TargetRule),
      ruleTypeMatch r (some t) = true ↔ (r.type = wildcard ∨ ∃ p q, p ++ r.type ++ q = t) := by
    intro r
    unfold ruleTypeMatch
    by_cases hw : r.type = wildcard
    · simp [hw]
    · simp [hw, strContains_iff]
  constructor
  · rw [matchesTarget_eq]
    simp only [List.any_eq_true, ruleMatches, Bool.and_eq_true]
    constructor
    · rintro ⟨r, hr, h1, h2⟩
      exact ⟨r, hr, (hname r nm).mp h1, (htype r).mp h2⟩
    · rintro ⟨r, hr, h1, h2⟩
      exact ⟨r, hr, (hname r nm).mpr h1, (htype r).mpr h2⟩
  · rw [matchesTarget_eq]
    simp only [List.any_eq_true, ruleMatches, Bool.and_eq_true]
    constructor
    · rintro ⟨r, hr, h1, h2⟩
      rcases (hname r none).mp h1 with hw | ⟨n, hn, _⟩
      · exact ⟨r, hr, hw, (htype r).mp h2⟩
      · cases hn
    · rintro ⟨r, hr, h1, h2⟩
      exact ⟨r, hr, (hname r none).mpr (Or.inl h1), (htype r).mpr h2⟩

/-- C9: re-ordering the rule list does not change the matcher's result
(for inputs matching exactly one rule, as the claim states; the hypothesis
records that exactly one rule of the set matches). -/
theorem matchesTarget_perm_invariant (rules rules' : List TargetRule)
    (nm tp : Option WStr)
    (hperm : List.Perm rules rules')
    (huniq : (rules.filter (ruleMatches nm tp)).length = 1) :
    matchesTarget rules' nm tp = matchesTarget rules nm tp := by
  rw [matchesTarget_eq, matchesTarget_eq, any_eq_of_perm (ruleMatches nm tp) hperm]

/-- Witness for C9 at a concrete input: two non-overlapping rules swapped,
with the element matching exactly the second one (spec §8 scenario: rules
`{name:"*",type:"Rectangle"}` and `{name:"Foo",type:"*"}`, element
`name="Foo", type="Circle"`). -/
theorem matchesTarget_perm_invariant_witness :
    (List.Perm
      [TargetRule.mk ['*'] ['R'] , TargetRule.mk ['F'] ['*']]
      [TargetRule.mk ['F'] ['*'] , TargetRule.mk ['*'] ['R']]) ∧
    (([TargetRule.mk ['*'] ['R'] , TargetRule.mk ['F'] ['*']].filter
        (ruleMatches (some ['F']) (some ['C']))).length = 1) ∧
    matchesTarget [TargetRule.mk ['F'] ['*'] , TargetRule.mk ['*'] ['R']]
        (some ['F']) (some ['C']) =
      matchesTarget [TargetRule.mk ['*'] ['R'] , TargetRule.mk ['F'] ['*']]
        (some ['F']) (some ['C']) :=
  ⟨by decide, by decide,
    matchesTarget_perm_invariant _ _ _ _ (by decide) (by decide)⟩

/-! ## Appearance modes and the watcher state
(`ShellTAP.h`: `AppearanceMode`, `TrackedElement`, `MAX_TRACKED`). -/

theorem onAdd_cases (dm : Bool) (rules : List TargetRule) (s : WatcherState)
    (e : VisualElement) :
    onAdd dm rules s e = s ∨
    ∃ n t, e.name = some n ∧ e.type = some t ∧
      (matchesTarget rules (some n) (some t)).1 = true ∧
      s.tracked.length < MAX_TRACKED ∧
      (onAdd dm rules s e).tracked = s.tracked ++
        [⟨e.handle, n.take 63, t.take 127,
          (matchesTarget rules (some n) (some t)).2, true⟩] := by
  unfold onAdd
  by_cases hdm : dm
  · simp [hdm]
  · simp only [hdm, if_false, Bool.false_eq_true]
    cases hn : e.name with
    | none => left; rfl
    | some n =>
      cases ht : e.type with
      | none => left; rfl
      | some t =>
        by_cases hm : (matchesTarget rules (some n) (some t)).1 = true
        · by_cases hlen : s.tracked.length < MAX_TRACKED
          · right
            exact ⟨n, t, rfl, rfl, hm, hlen, by simp [hm, hlen]⟩
          · left; simp [hm, hlen]
        · left
          simp only [Bool.not_eq_true] at hm
          simp [hm]

theorem onAdd_tracked_length (dm : Bool) (rules : List TargetRule)
    (s : WatcherState) (e : VisualElement) :
    (onAdd dm rules s e).tracked.length = s.tracked.length ∨
    (s.tracked.length < MAX_TRACKED ∧
      (onAdd dm rules s e).tracked.length = s.tracked.length + 1) := by
  rcases onAdd_cases dm rules s e with h | ⟨n, t, _, _, _, hlen, htr⟩
  · left; rw [h]
  · right; exact ⟨hlen, by rw [htr]; simp⟩

theorem onRemove_tracked_length (s : WatcherState) (h : Nat) :
    (onRemove s h).tracked.length = s.tracked.length := by
  simp [onRemove]

theorem countActive_onRemove_self (s : WatcherState) (h : Nat) :
    countActive (onRemove s h) h = 0 := by
  simp only [countActive, onRemove, List.filter_map, List.length_map]
  rw [List.length_eq_zero, List.filter_eq_nil_iff]
  intro r _
  by_cases hr : r.handle = h
  · simp [Function.comp, hr]
  · have hb : (r.handle == h) = false := beq_eq_false_iff_ne.mpr hr
    simp [Function.comp, hr, hb]

theorem countActive_onRemove_ne (s : WatcherState) (h h' : Nat) (hne : h' ≠ h) :
    countActive (onRemove s h) h' = countActive s h' := by
  simp only [countActive, onRemove, List.filter_map, List.length_map]
  congr 1
  apply List.filter_congr
  intro r _
  by_cases hr : r.handle = h
  · have hb : (h == h') = false :=
      beq_eq_false_iff_ne.mpr fun hh => hne hh.symm
    simp [Function.comp, hr, hb]
  · simp [Function.comp, hr]

theorem countActive_onAdd (dm : Bool) (rules : List TargetRule)
    (s : WatcherState) (e : VisualElement) (h : Nat) :
    (h = e.handle ∧ countActive (onAdd dm rules s e) h ≤ countActive s h + 1) ∨
    (h ≠ e.handle ∧ countActive (onAdd dm rules s e) h = countActive s h) ∨
    countActive (onAdd dm rules s e) h = countActive s h := by
  rcases onAdd_cases dm rules s e with heq | ⟨n, t, _, _, _, _, htr⟩
  · right; right; rw [heq]
  · by_cases hh : h = e.handle
    · left
      refine ⟨hh, ?_⟩
      simp only [countActive, htr, List.filter_append, List.length_append]
      have hle : (([(⟨e.handle, n.take 63, t.take 127,
          (matchesTarget rules (some n) (some t)).2, true⟩ : TrackedElement)]).filter
            fun r => r.active && (r.handle == h)).length ≤ 1 := by
        rw [List.filter_cons]
        cases hc : ((true : Bool) && (e.handle == h)) <;> simp
      omega
    · right; left
      refine ⟨hh, ?_⟩
      simp only [countActive, htr, List.filter_append, List.length_append]
      have hz : (([(⟨e.handle, n.take 63, t.take 127,
          (matchesTarget rules (some n) (some t)).2, true⟩ : TrackedElement)]).filter
            fun r => r.active && (r.handle == h)).length = 0 := by
        have hb : (e.handle == h) = false :=
          beq_eq_false_iff_ne.mpr fun hc => hh hc.symm
        rw [List.filter_cons]
        simp [hb]
      omega

/-! ### Handle-uniqueness bookkeeping for C5

`A : Nat → Bool` records which handles currently have an open (un-removed)
Add in the event stream; `wfFrom A evs` says the host never emits a second
Add for a handle whose first Add is still open (the handle-uniqueness
assumption of the claim). -/

theorem countActive_invariant (dm : Bool) (rules : List TargetRule) :
    ∀ (evs : List ElementEvent) (A : Nat → Bool) (w : ShellWatcherFull),
      wfFrom A evs = true →
      (∀ h, countActive w.state h ≤ if A h then 1 else 0) →
      ∀ h, countActive (processEvents dm rules w evs).state h ≤
        if openAfter A evs h then 1 else 0 := by
  intro evs
  induction evs with
  | nil =>
    intro A w _ hbound h
    exact hbound h
  | cons ev rest ih =>
    intro A w hwf hbound h
    rw [wfFrom, Bool.and_eq_true] at hwf
    obtain ⟨hguard, hwf'⟩ := hwf
    have hstep : ∀ h', countActive ((onVisualTreeChange dm rules w ev).1).state h' ≤
        if stepOpen A ev h' then 1 else 0 := by
      intro h'
      cases hk : ev.kind with
      | add =>
        rw [hk] at hguard
        have hA : A ev.element.handle = false := by
          simpa using hguard
        have hstate : ((onVisualTreeChange dm rules w ev).1).state =
            onAdd dm rules w.state ev.element := by
          simp [onVisualTreeChange, hk]
        rw [hstate]
        by_cases hh : h' = ev.element.handle
        · have hA' : A h' = false := by rw [hh]; exact hA
          have hzero : countActive w.state h' = 0 := by
            have hb := hbound h'
            rw [hA'] at hb
            simpa using hb
          have hopen : stepOpen A ev h' = true := by
            unfold stepOpen
            rw [if_pos hh.symm, hk]
          rw [hopen, if_pos rfl]
          rcases countActive_onAdd dm rules w.state ev.element h' with
            ⟨_, hle⟩ | ⟨_, heq⟩ | heq
          · omega
          · omega
          · omega
        · have hopen : stepOpen A ev h' = A h' := by
            unfold stepOpen
            rw [if_neg (fun hc : ev.element.handle = h' => hh hc.symm)]
          rw [hopen]
          rcases countActive_onAdd dm rules w.state ev.element h' with
            ⟨heq', _⟩ | ⟨_, heq⟩ | heq
          · exact absurd heq' hh
          · rw [heq]; exact hbound h'
          · rw [heq]; exact hbound h'
      | remove =>
        have hstate : ((onVisualTreeChange dm rules w ev).1).state =
            onRemove w.state ev.element.handle := by
          simp [onVisualTreeChange, hk]
        rw [hstate]
        by_cases hh : h' = ev.element.handle
        · have : countActive (onRemove w.state ev.element.handle) h' = 0 := by
            rw [hh]; exact countActive_onRemove_self w.state ev.element.handle
          rw [this]
          split <;> omega
        · have := countActive_onRemove_ne w.state ev.element.handle h' hh
          rw [this]
          have hopen : stepOpen A ev h' = A h' := by
            unfold stepOpen
            rw [if_neg (fun hc : ev.element.handle = h' => hh hc.symm)]
          rw [hopen]
          exact hbound h'
    have : processEvents dm rules w (ev :: rest) =
        processEvents dm rules (onVisualTreeChange dm rules w ev).1 rest := rfl
    rw [this]
    have : openAfter A (ev :: rest) = openAfter (stepOpen A ev) rest := rfl
    rw [this]
    exact ih (stepOpen A ev) (onVisualTreeChange dm rules w ev).1 hwf' hstep h

/-! ### Capacity lemmas for C6 -/

theorem step_capacity (dm : Bool) (rules : List TargetRule)
    (w : ShellWatcherFull) (ev : ElementEvent)
    (hle : w.state.tracked.length ≤ MAX_TRACKED) :
    ((onVisualTreeChange dm rules w ev).1).state.tracked.length ≤ MAX_TRACKED := by
  cases hk : ev.kind with
  | add =>
    have hstate : ((onVisualTreeChange dm rules w ev).1).state =
        onAdd dm rules w.state ev.element := by
      simp [onVisualTreeChange, hk]
    rw [hstate]
    rcases onAdd_tracked_length dm rules w.state ev.element with heq | ⟨hlt, heq⟩
    · omega
    · omega
  | remove =>
    have hstate : ((onVisualTreeChange dm rules w ev).1).state =
        onRemove w.state ev.element.handle := by
      simp [onVisualTreeChange, hk]
    rw [hstate, onRemove_tracked_length]
    exact hle

theorem processEvents_capacity (dm : Bool) (rules : List TargetRule) :
    ∀ (evs : List ElementEvent) (w : ShellWatcherFull),
      w.state.tracked.length ≤ MAX_TRACKED →
      (processEvents dm rules w evs).state.tracked.length ≤ MAX_TRACKED := by
  intro evs
  induction evs with
  | nil => intro w h; exact h
  | cons ev rest ih =>
    intro w h
    exact ih _ (step_capacity dm rules w ev h)

theorem processEvents_matching_adds (rules : List TargetRule) :
    ∀ (evs : List ElementEvent) (w : ShellWatcherFull),
      (∀ ev ∈ evs, matchingAddB rules ev = true) →
      (∀ r ∈ w.state.tracked, r.active = true) →
      w.state.tracked.length ≤ MAX_TRACKED →
      (processEvents false rules w evs).state.tracked.length =
          min (w.state.tracked.length + evs.length) MAX_TRACKED ∧
        ∀ r ∈ (processEvents false rules w evs).state.tracked, r.active = true := by
  intro evs
  induction evs with
  | nil =>
    intro w _ hact hle
    refine ⟨?_, hact⟩
    simp only [processEvents, List.length_nil]
    omega
  | cons ev rest ih =>
    intro w hall hact hle
    have hev := hall ev (List.mem_cons_self ev rest)
    rw [matchingAddB, Bool.and_eq_true, beq_iff_eq] at hev
    obtain ⟨hk, hmatch⟩ := hev
    cases hn : ev.element.name with
    | none => rw [hn] at hmatch; cases hmatch
    | some n =>
      cases ht : ev.element.type with
      | none => rw [hn, ht] at hmatch; cases hmatch
      | some t =>
        rw [hn, ht] at hmatch
        have hmatch' : (matchesTarget rules (some n) (some t)).1 = true := hmatch
        have hstep : (onVisualTreeChange false rules w ev).1 =
            ⟨onAdd false rules w.state ev.element, w.log⟩ := by
          simp [onVisualTreeChange, hk]
        have hrest : ∀ e ∈ rest, matchingAddB rules e = true :=
          fun e he => hall e (List.mem_cons_of_mem ev he)
        by_cases hlt : w.state.tracked.length < MAX_TRACKED
        · have htr : (onAdd false rules w.state ev.element).tracked =
              w.state.tracked ++
                [⟨ev.element.handle, n.take 63, t.take 127,
                  (matchesTarget rules (some n) (some t)).2, true⟩] := by
            simp [onAdd, hn, ht, hmatch', hlt]
          have hact' : ∀ r ∈ (onAdd false rules w.state ev.element).tracked,
              r.active = true := by
            rw [htr]
            intro r hr
            rcases List.mem_append.mp hr with hr | hr
            · exact hact r hr
            · rcases List.mem_singleton.mp hr with rfl; rfl
          have hlen' : (onAdd false rules w.state ev.element).tracked.length =
              w.state.tracked.length + 1 := by
            rw [htr]; simp
          have hih := ih ⟨onAdd false rules w.state ev.element, w.log⟩ hrest hact'
            (by dsimp only; omega)
          dsimp only at hih
          rw [processEvents, hstep]
          refine ⟨?_, hih.2⟩
          rw [hih.1, hlen']
          simp only [List.length_cons]
          omega
        · have hstate : onAdd false rules w.state ev.element = w.state := by
            simp [onAdd, hn, ht, hmatch', hlt]
          have hih := ih ⟨w.state, w.log⟩ hrest hact hle
          dsimp only at hih
          rw [processEvents, hstep, hstate]
          refine ⟨?_, hih.2⟩
          rw [hih.1]
          simp only [List.length_cons]
          omega

/-! ### Row-preservation lemmas for C8 -/

theorem inactive_preserved_step (dm : Bool) (rules : List TargetRule)
    (w : ShellWatcherFull) (ev : ElementEvent) (i : Nat) (r : TrackedElement)
    (hget : w.state.tracked[i]? = some r) (hact : r.active = false) :
    ∃ r', ((onVisualTreeChange dm rules w ev).1).state.tracked[i]? = some r' ∧
      r'.active = false := by
  have hi : i < w.state.tracked.length := by
    rcases List.getElem?_eq_some.mp hget with ⟨hl, _⟩
    exact hl
  cases hk : ev.kind with
  | add =>
    have hstate : ((onVisualTreeChange dm rules w ev).1).state =
        onAdd dm rules w.state ev.element := by
      simp [onVisualTreeChange, hk]
    rw [hstate]
    rcases onAdd_cases dm rules w.state ev.element with heq | ⟨n, t, _, _, _, _, htr⟩
    · exact ⟨r, by rw [heq]; exact hget, hact⟩
    · refine ⟨r, ?_, hact⟩
      rw [htr, List.getElem?_append]
      simpa [hi] using hget
  | remove =>
    have hstate : ((onVisualTreeChange dm rules w ev).1).state =
        onRemove w.state ev.element.handle := by
      simp [onVisualTreeChange, hk]
    rw [hstate]
    have hmap : (onRemove w.state ev.element.handle).tracked[i]? =
        some (if r.handle = ev.element.handle then
          { r with active := false, handle := 0 } else r) := by
      simp [onRemove, List.getElem?_map, hget]
    by_cases hr : r.handle = ev.element.handle
    · rw [if_pos hr] at hmap
      exact ⟨_, hmap, rfl⟩
    · rw [if_neg hr] at hmap
      exact ⟨r, hmap, hact⟩

theorem inactive_preserved (dm : Bool) (rules : List TargetRule) :
    ∀ (evs : List ElementEvent) (w : ShellWatcherFull) (i : Nat) (r : TrackedElement),
      w.state.tracked[i]? = some r → r.active = false →
      ∃ r', (processEvents dm rules w evs).state.tracked[i]? = some r' ∧
        r'.active = false := by
  intro evs
  induction evs with
  | nil => intro w i r hget hact; exact ⟨r, hget, hact⟩
  | cons ev rest ih =>
    intro w i r hget hact
    rcases inactive_preserved_step dm rules w ev i r hget hact with ⟨r', hget', hact'⟩
    exact ih _ i r' hget' hact'

theorem applyModeRows_active (s : WatcherState) (i : Nat) (hi : i ∈ applyModeRows s) :
    ∃ r, s.tracked[i]? = some r ∧ r.active = true := by
  rw [applyModeRows, List.mem_filter] at hi
  obtain ⟨_, hp⟩ := hi
  cases hq : s.tracked[i]? with
  | none => rw [hq] at hp; cases hp
  | some r =>
    rw [hq] at hp
    simp only [Bool.and_eq_true] at hp
    exact ⟨r, rfl, hp.1⟩

/-! ## Configuration and process-wide globals -/

/-- C5 (amended): on the generic multi-target (ShellTAP) watcher the claim
holds as stated: when the host emits at most one Add per handle during that
handle's lifetime (`wfFrom` from the all-closed start), every reachable
tracked table has at most one active row per handle; an Add only ever appends
a fresh active row (old rows are never reused or reactivated); and the event
callback always returns `S_OK`. On the TaskbarTAP variant the callback also
always returns `S_OK` (never crashes), but a reappearing handle's Add may be
written back into a still-active old composite row instead of a fresh one. -/
theorem tracked_rows_invariant (dm : Bool) (rules : List TargetRule)
    (evs : List ElementEvent)
    (hwf : wfFrom (fun _ => false) evs = true) :
    (∀ h, countActive (processEvents dm rules ⟨emptyWatcher, []⟩ evs).state h ≤ 1) ∧
    (∀ (dm' : Bool) (rules' : List TargetRule) (s : WatcherState) (e : VisualElement),
      onAdd dm' rules' s e = s ∨
      ∃ row, (onAdd dm' rules' s e).tracked = s.tracked ++ [row] ∧
        row.active = true ∧ row.handle = e.handle) ∧
    (∀ (dm' : Bool) (rules' : List TargetRule) (w : ShellWatcherFull) (ev : ElementEvent),
      (onVisualTreeChange dm' rules' w ev).2 = HResult.sOk) ∧
    (∀ (s : TaskbarWatcherState) (ev : ElementEvent),
      (taskbarOnVisualTreeChange s ev).2 = HResult.sOk) := by
  refine ⟨?_, ?_, ?_, ?_⟩
  · intro h
    have hbase : ∀ h', countActive (⟨emptyWatcher, []⟩ : ShellWatcherFull).state h' ≤
        if (fun _ : Nat => false) h' then 1 else 0 := by
      intro h'
      simp [countActive, emptyWatcher]
    have hinv := countActive_invariant dm rules evs (fun _ => false)
      ⟨emptyWatcher, []⟩ hwf hbase h
    split at hinv <;> omega
  · intro dm' rules' s e
    rcases onAdd_cases dm' rules' s e with heq | ⟨n, t, _, _, _, _, htr⟩
    · exact Or.inl heq
    · exact Or.inr ⟨_, htr, rfl, rfl⟩
  · intro dm' rules' w ev
    rcases ev with ⟨par, el, k⟩
    cases k <;> rfl
  · intro s ev
    rcases ev with ⟨par, el, k⟩
    cases k <;> rfl

/-- Witness for C5: the event stream Add(5); Remove(5); Add(5) is
handle-unique, and processing it keeps at most one active row for handle 5. -/
theorem tracked_rows_invariant_witness :
    wfFrom (fun _ => false) c5Events = true ∧
    countActive (processEvents false wildRules ⟨emptyWatcher, []⟩ c5Events).state 5 ≤ 1 :=
  ⟨by decide, (tracked_rows_invariant false wildRules c5Events (by decide)).1 5⟩

/-- C5 counterexample: the claim fails on the TaskbarTAP watcher. The stream
Add Fill(1); Add Stroke(2); Remove(1); Add Fill(1) emits at most one Add per
handle per lifetime (handle 1 reappears only after its Remove), yet the
reappearing handle 1 is NOT inserted as a fresh row: after the Remove the old
composite row is still active as `⟨0, 2, 0, true⟩`, and the final Add writes
handle 1 back into that same single row, giving `⟨1, 2, 0, true⟩` — the old
row is reused, and the table still has exactly one row. -/
theorem taskbar_readd_reuses_old_row :
    wfFrom (fun _ => false) c5TaskbarEvents = true ∧
    (processTaskbarEvents ⟨[]⟩ (c5TaskbarEvents.take 3)).taskbars =
      [⟨0, 2, 0, true⟩] ∧
    (processTaskbarEvents ⟨[]⟩ c5TaskbarEvents).taskbars =
      [⟨1, 2, 0, true⟩] := by
  refine ⟨by decide, by decide, by decide⟩

/-- C6: processing `MAX_TRACKED + 1 = 33` distinct matching Add events from an
empty table yields exactly 32 active rows; the extra Add is dropped silently
(the callback still returns `S_OK`); and no reachable table ever exceeds the
capacity. -/
theorem capacity_never_exceeded (rules : List TargetRule) (evs : List ElementEvent)
    (hall : ∀ ev ∈ evs, matchingAddB rules ev = true)
    (hdistinct : evs.Pairwise (fun a b => a.element.handle ≠ b.element.handle))
    (hlen : evs.length = MAX_TRACKED + 1) :
    activeCount (processEvents false rules ⟨emptyWatcher, []⟩ evs).state = MAX_TRACKED ∧
    getTrackedCount (processEvents false rules ⟨emptyWatcher, []⟩ evs).state = MAX_TRACKED ∧
    (∀ ev ∈ evs, ∀ w : ShellWatcherFull,
      (onVisualTreeChange false rules w ev).2 = HResult.sOk) ∧
    (∀ (dm' : Bool) (rules' : List TargetRule) (w : ShellWatcherFull)
      (evs' : List ElementEvent),
      w.state.tracked.length ≤ MAX_TRACKED →
      (processEvents dm' rules' w evs').state.tracked.length ≤ MAX_TRACKED) := by
  have hmain := processEvents_matching_adds rules evs ⟨emptyWatcher, []⟩ hall
    (by intro r hr; cases hr) (by simp [emptyWatcher])
  dsimp only [emptyWatcher] at hmain
  have hlen' : (processEvents false rules ⟨emptyWatcher, []⟩ evs).state.tracked.length =
      MAX_TRACKED := by
    have h1 := hmain.1
    rw [hlen] at h1
    simpa [emptyWatcher] using h1
  refine ⟨?_, ?_, ?_, ?_⟩
  · rw [activeCount, List.filter_eq_self.mpr ?_, ]
    · exact hlen'
    · intro r hr
      exact hmain.2 r hr
  · exact hlen'
  · intro ev _ w
    rcases ev with ⟨par, el, k⟩
    cases k <;> rfl
  · intro dm' rules' w evs' hle
    exact processEvents_capacity dm' rules' evs' w hle

/-- Witness for C6: 33 distinct wildcard-matching Add events. -/
theorem capacity_never_exceeded_witness :
    (∀ ev ∈ c6Events, matchingAddB wildRules ev = true) ∧
    c6Events.Pairwise (fun a b => a.element.handle ≠ b.element.handle) ∧
    c6Events.length = MAX_TRACKED + 1 ∧
    activeCount (processEvents false wildRules ⟨emptyWatcher, []⟩ c6Events).state =
      MAX_TRACKED :=
  ⟨by decide, by decide, by decide,
    (capacity_never_exceeded wildRules c6Events (by decide) (by decide) (by decide)).1⟩

theorem discovery_log_lemma (rules : List TargetRule) :
    ∀ (evs : List ElementEvent) (log : List VisualElement),
      processEvents true rules ⟨⟨[]⟩, log⟩ evs =
        ⟨⟨[]⟩, log ++ (evs.filter (fun ev => ev.kind == MutationKind.add)).map
          (fun ev => ev.element)⟩ := by
  intro evs
  induction evs with
  | nil =>
    intro log
    simp [processEvents]
  | cons ev rest ih =>
    intro log
    rcases ev with ⟨par, el, k⟩
    cases k with
    | add =>
      have hstep : (onVisualTreeChange true rules ⟨⟨[]⟩, log⟩ ⟨par, el, .add⟩).1 =
          ⟨⟨[]⟩, log ++ [el]⟩ := by
        simp [onVisualTreeChange, onAdd]
      rw [processEvents, hstep, ih (log ++ [el])]
      simp [List.filter_cons]
    | remove =>
      have hstep : (onVisualTreeChange true rules ⟨⟨[]⟩, log⟩ ⟨par, el, .remove⟩).1 =
          ⟨⟨[]⟩, log⟩ := by
        simp [onVisualTreeChange, onRemove]
      rw [processEvents, hstep, ih log]
      simp [List.filter_cons]

/-- C7: with a zero rule count the watcher is in discovery mode; every Add
event is appended to the discovery log, no event is ever inserted into the
tracked table, and `GetTrackedCount()` stays 0 for every event sequence. -/
theorem discovery_mode_no_tracking (cfg : ShellTAPConfig) (rules : List TargetRule)
    (evs : List ElementEvent) (hzero : cfg.targetCount = 0) :
    discoveryOf cfg = true ∧
    getTrackedCount (processEvents (discoveryOf cfg) rules ⟨emptyWatcher, []⟩ evs).state = 0 ∧
    (processEvents (discoveryOf cfg) rules ⟨emptyWatcher, []⟩ evs).log =
      (evs.filter (fun ev => ev.kind == MutationKind.add)).map (fun ev => ev.element) := by
  have hdm : discoveryOf cfg = true := by simp [discoveryOf, hzero]
  rw [hdm]
  have hrun := discovery_log_lemma rules evs []
  have hw : (⟨emptyWatcher, []⟩ : ShellWatcherFull) = ⟨⟨[]⟩, []⟩ := rfl
  rw [hw, hrun]
  exact ⟨rfl, rfl, by simp⟩

/-- Witness for C7: a config with zero targets, one Add and one Remove event. -/
theorem discovery_mode_no_tracking_witness :
    (⟨1, 1, 0, [], [], 0⟩ : ShellTAPConfig).targetCount = 0 ∧
    getTrackedCount (processEvents (discoveryOf ⟨1, 1, 0, [], [], 0⟩) wildRules
      ⟨emptyWatcher, []⟩ c5Events).state = 0 :=
  ⟨rfl, (discovery_mode_no_tracking ⟨1, 1, 0, [], [], 0⟩ wildRules c5Events rfl).2.1⟩

/-- C8: a Remove event for handle `h` deactivates every row tracking `h`
(the row's `active` flag becomes `false`, immediately and after any further
events), and every subsequent `ApplyMode` invocation skips that row. -/
theorem remove_deactivates_row (dm : Bool) (rules : List TargetRule)
    (w : ShellWatcherFull) (i : Nat) (r : TrackedElement) (h par nc : Nat)
    (nm tp : Option WStr) (evs : List ElementEvent)
    (hget : w.state.tracked[i]? = some r) (hh : r.handle = h) :
    ∃ r', (processEvents dm rules w
        (⟨par, ⟨h, nm, tp, nc⟩, MutationKind.remove⟩ :: evs)).state.tracked[i]? = some r' ∧
      r'.active = false ∧
      i ∉ applyModeRows (processEvents dm rules w
        (⟨par, ⟨h, nm, tp, nc⟩, MutationKind.remove⟩ :: evs)).state := by
  have hstep : (onVisualTreeChange dm rules w ⟨par, ⟨h, nm, tp, nc⟩, .remove⟩).1 =
      ⟨onRemove w.state h, w.log⟩ := rfl
  have hmap : (onRemove w.state h).tracked[i]? =
      some { r with active := false, handle := 0 } := by
    simp [onRemove, List.getElem?_map, hget, hh]
  have hproc : processEvents dm rules w (⟨par, ⟨h, nm, tp, nc⟩, .remove⟩ :: evs) =
      processEvents dm rules ⟨onRemove w.state h, w.log⟩ evs := by
    rw [processEvents, hstep]
  rw [hproc]
  rcases inactive_preserved dm rules evs ⟨onRemove w.state h, w.log⟩ i
      { r with active := false, handle := 0 } hmap rfl with ⟨r', hget', hact'⟩
  refine ⟨r', hget', hact', ?_⟩
  intro hmem
  rcases applyModeRows_active _ i hmem with ⟨r'', hget'', hact''⟩
  have heq : r' = r'' := Option.some.inj (hget'.symm.trans hget'')
  rw [heq, hact''] at hact'
  cases hact'

/-- Witness for C8: a table with one active row for handle 7, removed. -/
theorem remove_deactivates_row_witness :
    (c8State.state.tracked[0]? = some c8Row ∧ c8Row.handle = 7) ∧
    ∃ r', (processEvents false [] c8State
        (⟨0, ⟨7, none, none, 0⟩, MutationKind.remove⟩ :: [])).state.tracked[0]? = some r' ∧
      r'.active = false ∧
      0 ∉ applyModeRows (processEvents false [] c8State
        (⟨0, ⟨7, none, none, 0⟩, MutationKind.remove⟩ :: [])).state :=
  ⟨⟨rfl, rfl⟩,
    remove_deactivates_row false [] c8State 0 c8Row 7 0 0 none none [] rfl rfl⟩

theorem length_filter_active (l : List TrackedElement) :
    l.length = (l.filter (fun r => r.active)).length +
      (l.filter (fun r => !r.active)).length := by
  induction l with
  | nil => rfl
  | cons r rest ih =>
    rw [List.filter_cons, List.filter_cons]
    cases hr : r.active <;> simp [hr] <;> omega

/-- C10: `GetTrackedCount()` (exported as `GetShellTAPAppliedCount`) is
non-decreasing over every event sequence; a Remove never decrements it; and
the count decomposes as active rows plus deactivated rows (it includes rows
that are no longer active). -/
theorem tracked_count_monotone :
    (∀ (dm : Bool) (rules : List TargetRule) (w : ShellWatcherFull)
      (evs : List ElementEvent),
      getTrackedCount w.state ≤ getTrackedCount (processEvents dm rules w evs).state) ∧
    (∀ (s : WatcherState) (h : Nat), getTrackedCount (onRemove s h) = getTrackedCount s) ∧
    (∀ s : WatcherState, getTrackedCount s =
      activeCount s + (s.tracked.filter (fun r => !r.active)).length) ∧
    (∀ (m : AppearanceMode) (sm : Option Int) (w : WatcherState),
      getShellTAPAppliedCount ⟨m, sm, some w⟩ = getTrackedCount w) := by
  have hstep : ∀ (dm : Bool) (rules : List TargetRule) (w : ShellWatcherFull)
      (ev : ElementEvent),
      w.state.tracked.length ≤
        ((onVisualTreeChange dm rules w ev).1).state.tracked.length := by
    intro dm rules w ev
    rcases ev with ⟨par, el, k⟩
    cases k with
    | add =>
      have hstate : ((onVisualTreeChange dm rules w ⟨par, el, .add⟩).1).state =
          onAdd dm rules w.state el := rfl
      rw [hstate]
      rcases onAdd_tracked_length dm rules w.state el with heq | ⟨_, heq⟩ <;> omega
    | remove =>
      have hstate : ((onVisualTreeChange dm rules w ⟨par, el, .remove⟩).1).state =
          onRemove w.state el.handle := rfl
      rw [hstate, onRemove_tracked_length]
  refine ⟨?_, ?_, ?_, ?_⟩
  · intro dm rules w evs
    induction evs generalizing w with
    | nil => exact le_refl _
    | cons ev rest ih =>
      calc getTrackedCount w.state
          ≤ ((onVisualTreeChange dm rules w ev).1).state.tracked.length :=
            hstep dm rules w ev
        _ ≤ _ := ih _
  · intro s h
    exact onRemove_tracked_length s h
  · intro s
    exact length_filter_active s.tracked
  · intro m sm w
    rfl

/-! ## The Property Mutator
(`VisualTreeWatcher::ApplyToElement` / `SetElementOpacity` in ShellTAP and
`ApplyToRectangle` / `SetRectangleOpacity` in TaskbarTAP).

The remote element is abstracted by the property-chain discovery result: the
`Index` of its `Opacity` and `Fill` properties (absent when the chain does not
expose them). A mutation is a list of remote operations; the diagnostics
interface offers both set-property and clear-property calls, but the code only
ever issues set-property. -/

/-- C1 counterexample: for an element whose Opacity and Fill properties are at
indices 1 and 2, the sequence ApplyMode(Default); ApplyMode(Transparent);
ApplyMode(Default) does NOT restore the cleared state: it leaves the opacity
overridden with the literal 1.0 and the fill overridden with the transparent
brush, because the Default branch writes a literal set-property operation
(never a remove-override operation). -/
theorem default_roundtrip_counterexample :
    runModes ⟨some 1, some 2⟩ false blankProps
        [.default, .transparent, .default] ≠ blankProps ∧
    runModes ⟨some 1, some 2⟩ false blankProps
        [.default, .transparent, .default] =
      ⟨some (.doubleLit 1), some (.solidColorBrush transparentColor)⟩ ∧
    applyToElement ⟨some 1, some 2⟩ .default false =
      [.setProp 1 (.doubleLit 1)] := by
  refine ⟨?_, ?_, ?_⟩ <;> decide

/-- C1 (amended): for every element whose Opacity and Fill properties are both
discovered (at distinct indices), ApplyMode(Default) issues exactly one
set-property operation writing the literal opacity 1.0 (it never issues a
remove-override operation, so the Fill override is left in place), and the
sequence Default; Transparent; Default ends with the opacity overridden by the
literal 1.0 and the fill overridden by the transparent brush — not in the
unmutated state. -/
theorem default_writes_literal (oi fi : Nat) (b : Bool) (hne : oi ≠ fi) :
    applyToElement ⟨some oi, some fi⟩ .default b = [.setProp oi (.doubleLit 1)] ∧
    ((applyToElement ⟨some oi, some fi⟩ .default b).all fun op =>
      match op with
      | .setProp _ _ => true
      | .clearProp _ => false) = true ∧
    runModes ⟨some oi, some fi⟩ false blankProps [.default, .transparent, .default] =
      ⟨some (.doubleLit 1), some (.solidColorBrush transparentColor)⟩ := by
  have hops : applyToElement ⟨some oi, some fi⟩ .default b =
      [.setProp oi (.doubleLit 1)] := by
    norm_num [applyToElement, setElementOpacity, opacityFor]
  have hfi : ¬((some oi : Option Nat) = some fi) := by
    simp [Option.some.injEq]
    exact hne
  refine ⟨hops, by rw [hops]; rfl, ?_⟩
  norm_num [runModes, runOps, applyToElement, setElementOpacity, opacityFor,
    applyOp, blankProps, hfi]

/-- Witness for C1's amended theorem at indices 1 ≠ 2. -/
theorem default_writes_literal_witness :
    (1 : Nat) ≠ 2 ∧
    runModes ⟨some 1, some 2⟩ false blankProps [.default, .transparent, .default] =
      ⟨some (.doubleLit 1), some (.solidColorBrush transparentColor)⟩ :=
  ⟨by decide, (default_writes_literal 1 2 false (by decide)).2.2⟩

/-- C2 counterexample: in Acrylic mode for a non-stroke element the code writes
the fully transparent brush into Fill — the very same brush Transparent mode
writes — not a translucent-dark (≈27% black) brush; and in Default mode it
writes the opacity literal 1.0 without any fill operation (the fill is not
cleared). -/
theorem mode_table_counterexample :
    applyToElement ⟨some 1, some 2⟩ .acrylic false =
      [.setProp 1 (.doubleLit (3/10)),
       .setProp 2 (.solidColorBrush transparentColor)] ∧
    ¬ translucentDarkColor_spec transparentColor ∧
    applyToElement ⟨some 1, some 2⟩ .default false =
      [.setProp 1 (.doubleLit 1)] := by
  refine ⟨?_, ?_, ?_⟩
  · norm_num [applyToElement, setElementOpacity, opacityFor]
  · intro hc
    exact hc rfl
  · norm_num [applyToElement, setElementOpacity, opacityFor]

/-- C2 (amended): the write table both watcher variants implement, for an
element with both properties discovered: Transparent writes opacity 0.0 and the
transparent fill brush for both classifications; Acrylic writes opacity 0.3 and
the SAME transparent fill brush (not a translucent-dark one) for non-stroke
elements, and opacity 0.0 with the transparent fill brush for stroke elements;
Default writes the opacity literal 1.0 and issues no fill operation at all
(neither a write nor a clear). The TaskbarTAP variant issues identical
operations. -/
theorem mode_write_table (oi fi : Nat) (b : Bool) (e : ElemProps)
    (he : e = ⟨some oi, some fi⟩) :
    applyToElement e .transparent b =
      [.setProp oi (.doubleLit 0), .setProp fi (.solidColorBrush transparentColor)] ∧
    applyToElement e .acrylic false =
      [.setProp oi (.doubleLit (3/10)), .setProp fi (.solidColorBrush transparentColor)] ∧
    applyToElement e .acrylic true =
      [.setProp oi (.doubleLit 0), .setProp fi (.solidColorBrush transparentColor)] ∧
    applyToElement e .default b = [.setProp oi (.doubleLit 1)] ∧
    (∀ (mode : AppearanceMode) (b' : Bool),
      applyToRectangle e mode b' = applyToElement e mode b') := by
  subst he
  refine ⟨?_, ?_, ?_, ?_, ?_⟩
  · norm_num [applyToElement, setElementOpacity, opacityFor]
  · norm_num [applyToElement, setElementOpacity, opacityFor]
  · norm_num [applyToElement, setElementOpacity, opacityFor]
  · norm_num [applyToElement, setElementOpacity, opacityFor]
  · intro mode b'
    cases mode <;> cases b' <;> rfl

/-- Witness for C2's amended theorem at indices 1, 2. -/
theorem mode_write_table_witness :
    (⟨some 1, some 2⟩ : ElemProps) = ⟨some 1, some 2⟩ ∧
    applyToElement ⟨some 1, some 2⟩ .transparent false =
      [.setProp 1 (.doubleLit 0), .setProp 2 (.solidColorBrush transparentColor)] :=
  ⟨rfl, (mode_write_table 1 2 false ⟨some 1, some 2⟩ rfl).1⟩

/-! ## Claim theorems about the exported mode setters -/

theorem modeToInt_intToMode (m : Int) (h0 : 0 ≤ m) (h2 : m ≤ 2) :
    modeToInt (intToMode m) = m := by
  unfold intToMode
  by_cases hm0 : m = 0
  · simp [hm0, modeToInt]
  · by_cases hm1 : m = 1
    · simp [hm0, hm1, modeToInt]
    · have hm2 : m = 2 := by omega
      simp [hm0, hm1, hm2, modeToInt]

/-- C3 counterexample: the TaskbarTAP in-process setters do NOT write the
shared-memory word. Starting from a state where both words agree on
Transparent (1), `SetTaskbarDefault` sets the process-wide variable to Default
but leaves the shared word at 1, so the two diverge — refuting the claim for
"every in-process mode setter of both watcher variants". -/
theorem taskbar_setter_diverges :
    ((setTaskbarDefault ⟨.transparent, some 1, true⟩).2.1).appearance =
      AppearanceMode.default ∧
    ((setTaskbarDefault ⟨.transparent, some 1, true⟩).2.1).sharedMode = some 1 ∧
    some (modeToInt ((setTaskbarDefault ⟨.transparent, some 1, true⟩).2.1).appearance) ≠
      ((setTaskbarDefault ⟨.transparent, some 1, true⟩).2.1).sharedMode := by
  refine ⟨rfl, rfl, ?_⟩
  intro hc
  have : (0 : Int) = 1 := Option.some.inj hc
  cases this

/-- C3 (amended): `SetShellTAPMode` rejects `m ∉ {0,1,2}` with `E_INVALIDARG`,
leaving all state unchanged and issuing no mutation; for valid `m` it updates
`g_mode` and — when the mapping exists — the shared word, which then agree,
and triggers `ApplyMode` on the watcher. The TaskbarTAP setters
(`SetTaskbarTransparent`/`SetTaskbarAcrylic`/`SetTaskbarDefault`) update only
the process-wide variable, never the shared word (so the two may diverge), and
trigger `ApplyAppearance` exactly when a watcher exists. -/
theorem set_mode_validation (g : ShellGlobals) (m : Int) (tg : TaskbarGlobals)
    (h0 : 0 ≤ m) (h2 : m ≤ 2) :
    (∀ m', (m' < 0 ∨ 2 < m') → setShellTAPMode g m' = (.eInvalidArg, g, [])) ∧
    ((setShellTAPMode g m).1 = HResult.sOk ∧
      (setShellTAPMode g m).2.1.mode = intToMode m ∧
      (setShellTAPMode g m).2.1.watcher = g.watcher ∧
      (∀ v, g.sharedMode = some v →
        (setShellTAPMode g m).2.1.sharedMode = some m ∧
        some (modeToInt ((setShellTAPMode g m).2.1.mode)) =
          (setShellTAPMode g m).2.1.sharedMode) ∧
      (∀ w, g.watcher = some w →
        (setShellTAPMode g m).2.2 = applyModeCalls w (intToMode m))) ∧
    ((setTaskbarTransparent tg).2.1.appearance = AppearanceMode.transparent ∧
      (setTaskbarTransparent tg).2.1.sharedMode = tg.sharedMode ∧
      (setTaskbarAcrylic tg).2.1.appearance = AppearanceMode.acrylic ∧
      (setTaskbarAcrylic tg).2.1.sharedMode = tg.sharedMode ∧
      (setTaskbarDefault tg).2.1.appearance = AppearanceMode.default ∧
      (setTaskbarDefault tg).2.1.sharedMode = tg.sharedMode ∧
      (setTaskbarTransparent tg).2.2 = tg.watcherPresent) := by
  have hvalid : ¬(m < 0 ∨ 2 < m) := by omega
  refine ⟨?_, ?_, ?_⟩
  · intro m' hbad
    simp [setShellTAPMode, hbad]
  · unfold setShellTAPMode
    rw [if_neg hvalid]
    cases hw : g.watcher with
    | some w =>
      refine ⟨rfl, rfl, by simp, ?_, ?_⟩
      · intro v hv
        constructor
        · simp [hv]
        · simp [hv, modeToInt_intToMode m h0 h2]
      · intro w' hw'
        have : w = w' := Option.some.inj hw'
        rw [this]
    | none =>
      refine ⟨rfl, rfl, by simp, ?_, ?_⟩
      · intro v hv
        constructor
        · simp [hv]
        · simp [hv, modeToInt_intToMode m h0 h2]
      · intro w' hw'
        cases hw'
  · exact ⟨rfl, rfl, rfl, rfl, rfl, rfl, rfl⟩

/-- Witness for C3's amended theorem: a valid mode value 2 on concrete states
with a mapped shared word and a live (empty) watcher. -/
theorem set_mode_validation_witness :
    ((0 : Int) ≤ 2 ∧ (2 : Int) ≤ 2) ∧
    (setShellTAPMode ⟨.transparent, some 1, some emptyWatcher⟩ 2).1 = HResult.sOk :=
  ⟨⟨by decide, by decide⟩,
    (set_mode_validation ⟨.transparent, some 1, some emptyWatcher⟩ 2
      ⟨.transparent, some 1, true⟩ (by decide) (by decide)).2.1.1⟩
